import Mathlib

/-!
Shallow embedding of the Results Aggregator of `src/election.py` (AP_Elections).

The dashboard loads a CSV with columns `Constituency`, `Candidate`, `Party`,
`Total Votes` and derives three views from it with pandas one-liners:

* party view (line 124): `party_data = data[data['Party'] == selected_party].copy()`
  with metrics `sum()`, `int(mean())`, `int(max())` over `Total Votes`;
* constituency view (line 180): `const_data = data[data['Constituency'] == selected_constituency].copy()`
  with metrics `len(const_data)`, `sum()`, and the leading party
  `const_data.loc[const_data['Total Votes'].idxmax(), 'Party']` (line 191);
* overall view (lines 232-234): `data.groupby('Party')['Total Votes'].agg(['sum','mean','count'])`
  plus `Vote Share (%) = (sum / total_sum * 100).round(2)`.

A table is a `List ResultRow` in row order.  Vote counts are naturals; the
2-decimal rounding of the vote share is modelled over `ℚ` with numpy's
round-half-to-even tie mode.  A pandas statistic that raises a Python
`ValueError` on an empty series (`int(nan)` for `mean`/`max`, `idxmax` on an
empty series) is modelled as `Except.error` with a `PandasFault` naming the
raised exception; `Series.sum()` of an empty series is `0`.
-/

/-- One row of the results table: one candidate's vote total in one
constituency (columns `Constituency`, `Candidate`, `Party`, `Total Votes`). -/
structure ResultRow where
  constituency : String
  candidate : String
  party : String
  total_votes : Nat
deriving DecidableEq

/-- Line 124: `data[data['Party'] == selected_party].copy()` — the rows whose
`Party` equals the selected party, in input order. -/
def filterByParty (data : List ResultRow) (selected_party : String) : List ResultRow :=
  data.filter (fun r => r.party == selected_party)

/-- Line 180: `data[data['Constituency'] == selected_constituency].copy()`. -/
def filterByConstituency (data : List ResultRow) (selected_constituency : String) :
    List ResultRow :=
  data.filter (fun r => r.constituency == selected_constituency)

/-- Vote total of a subset: `subset['Total Votes'].sum()`; pandas returns `0`
on an empty series. -/
def votesSum (rows : List ResultRow) : Nat :=
  (rows.map (fun r => r.total_votes)).sum

/-- Maximum of a series of naturals: `Series.max()`; `none` models the `nan`
a pandas reduction yields on an empty series. -/
def natMaxList : List Nat → Option Nat
  | [] => none
  | x :: xs => some (xs.foldl Nat.max x)

/-- Python exceptions raised by the pandas statistics on an empty series. -/
inductive PandasFault where
  /-- `int(float('nan'))` raised by `int(series.mean())` / `int(series.max())`
  when the series is empty (lines 133 and 135). -/
  | valueErrorIntOfNaN
  /-- `ValueError` raised by `series.idxmax()` on an empty series (line 191). -/
  | valueErrorEmptyIdxmax
deriving DecidableEq

/-- The four summary statistics the dashboard shows for a subset:
`len(subset)` (line 187), `subset['Total Votes'].sum()` (lines 131, 189),
`int(subset['Total Votes'].mean())` (line 133) and
`int(subset['Total Votes'].max())` (line 135). -/
structure Summary where
  count : Nat
  sum : Nat
  mean : Nat
  max : Nat
deriving DecidableEq

/-- The summary statistics of a subset.  On an empty subset the computation
of `int(mean())` / `int(max())` raises (`int` of `nan`); on a non-empty one
the vote totals are naturals, so Python's `int()` truncation of the float
mean coincides with natural division. -/
def summarize (rows : List ResultRow) : Except PandasFault Summary :=
  match natMaxList (rows.map (fun r => r.total_votes)) with
  | none => .error .valueErrorIntOfNaN
  | some m =>
    .ok { count := rows.length
          sum := votesSum rows
          mean := votesSum rows / rows.length
          max := m }

/-- Scan modelling `Series.idxmax` followed by `.loc[·, 'Party']`: keep the
current best row, replacing it only on a strictly larger vote total, so the
first row attaining the maximum wins (pandas `idxmax` returns the first
index of the maximum). -/
def idxmaxRowAux (best : ResultRow) : List ResultRow → ResultRow
  | [] => best
  | r :: rs =>
    if best.total_votes < r.total_votes then idxmaxRowAux r rs
    else idxmaxRowAux best rs

/-- Line 191: `const_data.loc[const_data['Total Votes'].idxmax(), 'Party']`.
On an empty subset `idxmax` raises a `ValueError`. -/
def leadingParty : List ResultRow → Except PandasFault String
  | [] => .error .valueErrorEmptyIdxmax
  | r :: rs => .ok (idxmaxRowAux r rs).party

/-- Round a rational to the nearest integer, ties to the even integer — the
tie mode of numpy/pandas `round`. -/
def roundHalfEven (q : ℚ) : ℤ :=
  let f := ⌊q⌋
  if q - f < 1 / 2 then f
  else if 1 / 2 < q - f then f + 1
  else if f % 2 = 0 then f else f + 1

/-- Rounding to two decimal places, as in `.round(2)` (line 234). -/
def round2 (q : ℚ) : ℚ :=
  (roundHalfEven (q * 100) : ℚ) / 100

/-- One row of `party_totals` (lines 232-234): per-party sum, mean and count
of `Total Votes`, plus the vote share percentage. -/
structure AggRow where
  party : String
  total_votes_sum : Nat
  average_votes : ℚ
  constituency_count : Nat
  vote_share_percent : ℚ
deriving DecidableEq

/-- Group keys of `data.groupby('Party')`: the distinct `Party` values, in
sorted order (pandas sorts group keys by default).  Strings are compared by
their character sequences, as Python compares them by code points. -/
def groupKeys (rows : List ResultRow) : List String :=
  ((rows.map (fun r => r.party)).dedup).insertionSort (fun a b => a.data < b.data)

/-- Lines 232-234: `party_totals = data.groupby('Party')['Total Votes'].agg(['sum','mean','count'])`
followed by `party_totals['Vote Share (%)'] = (party_totals['Total Votes'] /
party_totals['Total Votes'].sum() * 100).round(2)`. -/
def aggregateByParty (rows : List ResultRow) : List AggRow :=
  let grand : Nat := votesSum rows
  (groupKeys rows).map (fun p =>
    let g := filterByParty rows p
    { party := p
      total_votes_sum := votesSum g
      average_votes := (votesSum g : ℚ) / (g.length : ℚ)
      constituency_count := g.length
      vote_share_percent := round2 ((votesSum g : ℚ) / (grand : ℚ) * 100) })

/-- Lines 8-13: the hard-coded `PARTY_COLORS` dictionary. -/
def PARTY_COLORS : List (String × String) :=
  [("Janasena Party", "#FF0000"),
   ("Telugu Desam", "#FFD700"),
   ("Yuvajana Sramika Rythu Congress Party", "#0000FF"),
   ("Bharatiya Janata Party", "#FFA500")]

/-- Line 93: the party selector's options, `list(PARTY_COLORS.keys())` — a
hard-coded list independent of the data. -/
def partyOptions : List String :=
  PARTY_COLORS.map (fun kv => kv.1)

/-- Line 112: `constituencies = sorted(data['Constituency'].unique())` — the
constituency selector's options are the distinct `Constituency` values of the
loaded data, sorted. -/
def constituencyOptions (data : List ResultRow) : List String :=
  ((data.map (fun r => r.constituency)).dedup).insertionSort (fun a b => a.data < b.data)

/-- The three-row scenario table: rows (C1, X, PartyA, 100), (C1, Y, PartyB,
150), (C2, Z, PartyA, 50). -/
def scenarioRows : List ResultRow :=
  [⟨"C1", "X", "PartyA", 100⟩,
   ⟨"C1", "Y", "PartyB", 150⟩,
   ⟨"C2", "Z", "PartyA", 50⟩]

/-- The empty subset makes `natMaxList` return `none` and conversely. -/
theorem natMaxList_eq_none_iff (l : List Nat) : natMaxList l = none ↔ l = [] := by
  cases l <;> simp [natMaxList]

theorem foldl_max_spec (xs : List Nat) (x : Nat) :
    (xs.foldl Nat.max x = x ∨ xs.foldl Nat.max x ∈ xs) ∧
      x ≤ xs.foldl Nat.max x ∧ ∀ y ∈ xs, y ≤ xs.foldl Nat.max x := by
  induction xs generalizing x with
  | nil => simp
  | cons z zs ih =>
    obtain ⟨hmem, hx, hall⟩ := ih (Nat.max x z)
    refine ⟨?_, ?_, ?_⟩
    · rcases hmem with h | h
      · rcases max_choice x z with hc | hc
        · left; simpa [List.foldl_cons, hc] using h
        · right
          rw [List.foldl_cons, h, show Nat.max x z = z from hc]
          exact List.mem_cons_self z zs
      · right; right; simpa [List.foldl_cons] using h
    · exact le_trans (Nat.le_max_left x z) (by simpa [List.foldl_cons] using hx)
    · intro y hy
      rcases List.mem_cons.mp hy with hy | hy
      · subst hy
        exact le_trans (Nat.le_max_right x y) (by simpa [List.foldl_cons] using hx)
      · simpa [List.foldl_cons] using hall y hy

/-- Specification of `natMaxList` on a non-empty list: the result is attained
and is an upper bound. -/
theorem natMaxList_spec (x : Nat) (xs : List Nat) :
    ∃ m, natMaxList (x :: xs) = some m ∧ m ∈ x :: xs ∧ ∀ y ∈ x :: xs, y ≤ m := by
  obtain ⟨hmem, hx, hall⟩ := foldl_max_spec xs x
  refine ⟨xs.foldl Nat.max x, rfl, ?_, ?_⟩
  · rcases hmem with h | h
    · simp [h]
    · simp [h]
  · intro y hy
    rcases List.mem_cons.mp hy with hy | hy
    · exact hy ▸ hx
    · exact hall y hy

/-- The scan keeps the incumbent on ties and replaces it only on a strict
increase, so its result is either the starting row (then a maximum) or the
first row of the rest that strictly exceeds the start and every row before
it, and is not exceeded after. -/
theorem idxmaxRowAux_spec (rest : List ResultRow) : ∀ best,
    idxmaxRowAux best rest = best ∧ (∀ q ∈ rest, q.total_votes ≤ best.total_votes)
    ∨ ∃ pre b post,
        rest = pre ++ b :: post ∧ idxmaxRowAux best rest = b ∧
        best.total_votes < b.total_votes ∧
        (∀ q ∈ pre, q.total_votes < b.total_votes) ∧
        (∀ q ∈ post, q.total_votes ≤ b.total_votes) := by
  induction rest with
  | nil => intro best; left; exact ⟨rfl, by simp⟩
  | cons r rs ih =>
    intro best
    by_cases hlt : best.total_votes < r.total_votes
    · rcases ih r with ⟨he, hall⟩ | ⟨pre, b, post, hsplit, he, hbr, hpre, hpost⟩
      · right
        exact ⟨[], r, rs, rfl, by simp [idxmaxRowAux, hlt, he], hlt, by simp, hall⟩
      · right
        refine ⟨r :: pre, b, post, by simp [hsplit], by simp [idxmaxRowAux, hlt, he],
          lt_trans hlt hbr, ?_, hpost⟩
        intro q hq
        rcases List.mem_cons.mp hq with hq | hq
        · exact hq ▸ hbr
        · exact hpre q hq
    · rcases ih best with ⟨he, hall⟩ | ⟨pre, b, post, hsplit, he, hbr, hpre, hpost⟩
      · left
        refine ⟨by simp [idxmaxRowAux, hlt, he], ?_⟩
        intro q hq
        rcases List.mem_cons.mp hq with hq | hq
        · exact hq ▸ Nat.not_lt.mp hlt
        · exact hall q hq
      · right
        refine ⟨r :: pre, b, post, by simp [hsplit], by simp [idxmaxRowAux, hlt, he], hbr,
          ?_, hpost⟩
        intro q hq
        rcases List.mem_cons.mp hq with hq | hq
        · exact hq ▸ lt_of_le_of_lt (Nat.not_lt.mp hlt) hbr
        · exact hpre q hq

/-- C1: on the empty subset the pandas statistics do crash rather than
return an explicit error kind: `int(series.mean())` (and `int(series.max())`)
raise a Python `ValueError` from `int(nan)`, `series.idxmax()` raises a
`ValueError`, and `series.sum()` returns the sentinel `0`. -/
theorem empty_input_raises_valueError :
    summarize [] = Except.error PandasFault.valueErrorIntOfNaN ∧
    leadingParty [] = Except.error PandasFault.valueErrorEmptyIdxmax ∧
    votesSum [] = 0 :=
  ⟨rfl, rfl, rfl⟩

/-- C4: on a non-empty subset, the summary's `sum` is the sum of the vote
totals of the rows and its `count` is the number of rows. -/
theorem summarize_sum_count (rows : List ResultRow) (hne : rows ≠ []) :
    ∃ s, summarize rows = Except.ok s ∧
      s.sum = (rows.map (fun r => r.total_votes)).sum ∧
      s.count = rows.length := by
  cases rows with
  | nil => exact absurd rfl hne
  | cons r rs => exact ⟨_, rfl, rfl, rfl⟩

/-- Witness for C4 at a one-row table. -/
theorem summarize_sum_count_witness :
    ∃ s, summarize [⟨"Gajuwaka", "X", "Janasena Party", 95006⟩] = Except.ok s ∧
      s.sum = ([(⟨"Gajuwaka", "X", "Janasena Party", 95006⟩ : ResultRow)].map
        (fun r => r.total_votes)).sum ∧
      s.count = [(⟨"Gajuwaka", "X", "Janasena Party", 95006⟩ : ResultRow)].length :=
  summarize_sum_count [⟨"Gajuwaka", "X", "Janasena Party", 95006⟩] (by simp)

/-- C6: on a non-empty subset, the summary's `max` bounds every row's vote
total from above and is attained by some row. -/
theorem summarize_max_spec (rows : List ResultRow) (hne : rows ≠ []) :
    ∃ s, summarize rows = Except.ok s ∧
      (∀ r ∈ rows, r.total_votes ≤ s.max) ∧
      ∃ r ∈ rows, r.total_votes = s.max := by
  cases rows with
  | nil => exact absurd rfl hne
  | cons r rs =>
    obtain ⟨m, heq, hmem, hub⟩ := natMaxList_spec r.total_votes (rs.map (fun q => q.total_votes))
    have hsum : summarize (r :: rs) =
        Except.ok ⟨(r :: rs).length, votesSum (r :: rs), votesSum (r :: rs) / (r :: rs).length, m⟩ := by
      unfold summarize
      rw [List.map_cons, heq]
    refine ⟨_, hsum, ?_, ?_⟩
    · intro q hq
      rcases List.mem_cons.mp hq with hq | hq
      · exact hq ▸ hub r.total_votes (List.mem_cons_self _ _)
      · exact hub q.total_votes (List.mem_cons_of_mem _ (List.mem_map_of_mem _ hq))
    · rcases List.mem_cons.mp hmem with h | h
      · exact ⟨r, List.mem_cons_self _ _, h.symm⟩
      · rcases List.mem_map.mp h with ⟨q, hq, hqv⟩
        exact ⟨q, List.mem_cons_of_mem _ hq, hqv⟩

/-- Witness for C6 at a two-row table. -/
theorem summarize_max_spec_witness :
    ∃ s, summarize [⟨"Pithapuram", "X", "Janasena Party", 134394⟩,
        ⟨"Pithapuram", "Y", "Yuvajana Sramika Rythu Congress Party", 64199⟩] = Except.ok s ∧
      (∀ r ∈ [(⟨"Pithapuram", "X", "Janasena Party", 134394⟩ : ResultRow),
        ⟨"Pithapuram", "Y", "Yuvajana Sramika Rythu Congress Party", 64199⟩],
        r.total_votes ≤ s.max) ∧
      ∃ r ∈ [(⟨"Pithapuram", "X", "Janasena Party", 134394⟩ : ResultRow),
        ⟨"Pithapuram", "Y", "Yuvajana Sramika Rythu Congress Party", 64199⟩],
        r.total_votes = s.max :=
  summarize_max_spec _ (by simp)

/-- C2: on a non-empty subset, `leadingParty` returns the party of a row
whose vote total equals the summary's `max`, and the chosen row is the first
row attaining the maximum: the subset splits as `pre ++ b :: post` with every
row of `pre` strictly below the maximum. -/
theorem leadingParty_first_max (rows : List ResultRow) (hne : rows ≠ []) :
    ∃ s, summarize rows = Except.ok s ∧
      ∃ pre b post,
        rows = pre ++ b :: post ∧
        leadingParty rows = Except.ok b.party ∧
        b.total_votes = s.max ∧
        ∀ q ∈ pre, q.total_votes < s.max := by
  cases rows with
  | nil => exact absurd rfl hne
  | cons r rs =>
    obtain ⟨m, heq, hmem, hub⟩ := natMaxList_spec r.total_votes (rs.map (fun q => q.total_votes))
    have hsum : summarize (r :: rs) =
        Except.ok ⟨(r :: rs).length, votesSum (r :: rs), votesSum (r :: rs) / (r :: rs).length, m⟩ := by
      unfold summarize
      rw [List.map_cons, heq]
    rcases idxmaxRowAux_spec rs r with ⟨he, hall⟩ | ⟨pre, b, post, hsplit, he, hbr, hpre, hpost⟩
    · have hbm : r.total_votes = m := by
        apply le_antisymm (hub r.total_votes (List.mem_cons_self _ _))
        rcases List.mem_cons.mp hmem with h | h
        · exact le_of_eq h
        · rcases List.mem_map.mp h with ⟨q, hq, hqv⟩
          exact hqv ▸ hall q hq
      exact ⟨_, hsum, [], r, rs, rfl, by simp [leadingParty, he], hbm, by simp⟩
    · have hbm : b.total_votes = m := by
        apply le_antisymm
        · refine hub b.total_votes (List.mem_cons_of_mem _ (List.mem_map_of_mem _ ?_))
          rw [hsplit]
          exact List.mem_append_right pre (List.mem_cons_self _ _)
        · rcases List.mem_cons.mp hmem with h | h
          · exact h ▸ le_of_lt hbr
          · rcases List.mem_map.mp h with ⟨q, hq, hqv⟩
            rw [hsplit] at hq
            rcases List.mem_append.mp hq with hq | hq
            · exact hqv ▸ le_of_lt (hpre q hq)
            · rcases List.mem_cons.mp hq with hq | hq
              · exact hqv ▸ hq ▸ le_refl _
              · exact hqv ▸ hpost q hq
      refine ⟨_, hsum, r :: pre, b, post, by simp [hsplit], by simp [leadingParty, he], hbm, ?_⟩
      intro q hq
      show q.total_votes < m
      rcases List.mem_cons.mp hq with hq | hq
      · rw [hq, ← hbm]; exact hbr
      · rw [← hbm]; exact hpre q hq

/-- Witness for C2 at a three-row constituency with a tie for the maximum:
the first of the two tied rows wins. -/
theorem leadingParty_first_max_witness :
    ∃ s, summarize [⟨"Mangalagiri", "A", "Telugu Desam", 120000⟩,
        ⟨"Mangalagiri", "B", "Bharatiya Janata Party", 120000⟩,
        ⟨"Mangalagiri", "C", "Janasena Party", 7⟩] = Except.ok s ∧
      ∃ pre b post,
        [(⟨"Mangalagiri", "A", "Telugu Desam", 120000⟩ : ResultRow),
          ⟨"Mangalagiri", "B", "Bharatiya Janata Party", 120000⟩,
          ⟨"Mangalagiri", "C", "Janasena Party", 7⟩] = pre ++ b :: post ∧
        leadingParty [⟨"Mangalagiri", "A", "Telugu Desam", 120000⟩,
          ⟨"Mangalagiri", "B", "Bharatiya Janata Party", 120000⟩,
          ⟨"Mangalagiri", "C", "Janasena Party", 7⟩] = Except.ok b.party ∧
        b.total_votes = s.max ∧
        ∀ q ∈ pre, q.total_votes < s.max :=
  leadingParty_first_max _ (by simp)

/-- C5: the party filter keeps exactly the rows whose party is the selected
name, the constituency filter exactly those whose constituency is the
selected name, and each returns the empty subset, not an error, precisely
when no row matches (in particular for a name unknown to the data). -/
theorem filter_membership (rows : List ResultRow) (name : String) (r : ResultRow) :
    (r ∈ filterByParty rows name ↔ r ∈ rows ∧ r.party = name) ∧
    (r ∈ filterByConstituency rows name ↔ r ∈ rows ∧ r.constituency = name) ∧
    (filterByParty rows name = [] ↔ ∀ q ∈ rows, q.party ≠ name) ∧
    (filterByConstituency rows name = [] ↔ ∀ q ∈ rows, q.constituency ≠ name) := by
  refine ⟨?_, ?_, ?_, ?_⟩ <;>
    simp [filterByParty, filterByConstituency, List.mem_filter, List.filter_eq_nil_iff]

/-- C8: filtering by the same party twice gives the same subset as filtering
once. -/
theorem filterByParty_idem (rows : List ResultRow) (p : String) :
    filterByParty (filterByParty rows p) p = filterByParty rows p := by
  simp [filterByParty, List.filter_filter]

/-- The rounded integer is within a half of the rational it rounds. -/
theorem roundHalfEven_sub_abs_le (q : ℚ) : |(roundHalfEven q : ℚ) - q| ≤ 1 / 2 := by
  have h0 : (⌊q⌋ : ℚ) ≤ q := Int.floor_le q
  have h1 : q < ⌊q⌋ + 1 := Int.lt_floor_add_one q
  simp only [roundHalfEven]
  split_ifs with ha hb hc <;> (rw [abs_le]; push_cast; constructor <;> linarith)

/-- Rounding to two decimals moves a rational by at most half a cent. -/
theorem round2_sub_abs_le (q : ℚ) : |round2 q - q| ≤ 1 / 200 := by
  have h := roundHalfEven_sub_abs_le (q * 100)
  rw [round2]
  rw [show (roundHalfEven (q * 100) : ℚ) / 100 - q =
    ((roundHalfEven (q * 100) : ℚ) - q * 100) / 100 by ring]
  rw [abs_div, show |(100 : ℚ)| = 100 by norm_num]
  linarith

/-- Rounding every entry of a list to two decimals moves the sum by at most
half a cent per entry. -/
theorem sum_map_round2_bound (xs : List ℚ) :
    |(xs.map round2).sum - xs.sum| ≤ (xs.length : ℚ) * (1 / 200) := by
  induction xs with
  | nil => simp
  | cons x xs ih =>
    have h1 := round2_sub_abs_le x
    calc |((x :: xs).map round2).sum - (x :: xs).sum|
        = |(round2 x - x) + ((xs.map round2).sum - xs.sum)| := by
          rw [List.map_cons, List.sum_cons, List.sum_cons]
          congr 1
          ring
      _ ≤ |round2 x - x| + |(xs.map round2).sum - xs.sum| := abs_add _ _
      _ ≤ 1 / 200 + (xs.length : ℚ) * (1 / 200) := add_le_add h1 ih
      _ = ((x :: xs).length : ℚ) * (1 / 200) := by
          rw [List.length_cons]
          push_cast
          ring

theorem sum_map_add_nat (l : List String) (f g : String → Nat) :
    (l.map (fun a => f a + g a)).sum = (l.map f).sum + (l.map g).sum := by
  induction l with
  | nil => rfl
  | cons a l ih =>
    simp only [List.map_cons, List.sum_cons, ih]
    omega

/-- Summing an indicator over a duplicate-free list containing the marked
element yields the marked value. -/
theorem sum_map_ite_eq (P : List String) (a : String) (v : Nat) (hnd : P.Nodup)
    (ha : a ∈ P) :
    (P.map (fun p => if a = p then v else 0)).sum = v := by
  induction P with
  | nil => cases ha
  | cons q Q ih =>
    rcases List.mem_cons.mp ha with h | h
    · subst h
      rw [List.map_cons, List.sum_cons, if_pos rfl]
      have hnotin : a ∉ Q := (List.nodup_cons.mp hnd).1
      have hzero : (Q.map (fun p => if a = p then v else 0)).sum = 0 := by
        apply List.sum_eq_zero
        intro x hx
        rcases List.mem_map.mp hx with ⟨p, hp, hpx⟩
        have hne : ¬ a = p := by
          intro he
          exact hnotin (by rw [he]; exact hp)
        rw [← hpx, if_neg hne]
      omega
    · have hne : ¬ a = q := by
        intro he
        exact (List.nodup_cons.mp hnd).1 (by rw [← he]; exact h)
      rw [List.map_cons, List.sum_cons, if_neg hne,
        ih (List.nodup_cons.mp hnd).2 h]
      omega

theorem votesSum_filterByParty_cons (r : ResultRow) (rows : List ResultRow) (p : String) :
    votesSum (filterByParty (r :: rows) p) =
      (if r.party = p then r.total_votes else 0) + votesSum (filterByParty rows p) := by
  by_cases h : r.party = p <;>
    simp [filterByParty, votesSum, List.filter_cons, h]

/-- Partition: summing the group vote totals over a duplicate-free list of
keys covering every row's party recovers the grand total. -/
theorem sum_groups_eq (P : List String) (rows : List ResultRow) (hnd : P.Nodup)
    (hcov : ∀ r ∈ rows, r.party ∈ P) :
    (P.map (fun p => votesSum (filterByParty rows p))).sum = votesSum rows := by
  induction rows with
  | nil => simp [filterByParty, votesSum]
  | cons r rest ih =>
    have hcov' : ∀ q ∈ rest, q.party ∈ P := fun q hq => hcov q (List.mem_cons_of_mem _ hq)
    have hr : r.party ∈ P := hcov r (List.mem_cons_self _ _)
    calc (P.map (fun p => votesSum (filterByParty (r :: rest) p))).sum
        = (P.map (fun p =>
            (if r.party = p then r.total_votes else 0) + votesSum (filterByParty rest p))).sum := by
          have hfun : (fun p : String => votesSum (filterByParty (r :: rest) p)) =
              fun p => (if r.party = p then r.total_votes else 0) +
                votesSum (filterByParty rest p) :=
            funext fun p => votesSum_filterByParty_cons r rest p
          rw [hfun]
      _ = (P.map (fun p => if r.party = p then r.total_votes else 0)).sum +
            (P.map (fun p => votesSum (filterByParty rest p))).sum :=
          sum_map_add_nat P _ _
      _ = r.total_votes + votesSum rest := by
          rw [sum_map_ite_eq P r.party r.total_votes hnd hr, ih hcov']
      _ = votesSum (r :: rest) := by simp [votesSum]

theorem natCast_sum_map (l : List String) (f : String → Nat) :
    (((l.map f).sum : Nat) : ℚ) = (l.map (fun a => (f a : ℚ))).sum := by
  induction l with
  | nil => simp
  | cons a l ih => simp [List.map_cons, List.sum_cons, ← ih]

theorem sum_map_div_mul (l : List String) (f : String → ℚ) (T : ℚ) :
    (l.map (fun a => f a / T * 100)).sum = (l.map f).sum / T * 100 := by
  induction l with
  | nil => simp
  | cons a l ih =>
    simp only [List.map_cons, List.sum_cons, ih]
    ring

/-- The group keys are duplicate-free. -/
theorem groupKeys_nodup (rows : List ResultRow) : (groupKeys rows).Nodup :=
  (List.perm_insertionSort _ _).symm.nodup (List.nodup_dedup _)

/-- A party is a group key exactly when some row carries it. -/
theorem mem_groupKeys (rows : List ResultRow) (p : String) :
    p ∈ groupKeys rows ↔ p ∈ rows.map (fun r => r.party) := by
  rw [groupKeys, (List.perm_insertionSort _ _).mem_iff, List.mem_dedup]

/-- C3 (amended): on an input with a positive grand total of votes, every
aggregate row's vote share is the group sum over the grand total times 100,
rounded to two decimals, and the shares sum to 100 within rounding tolerance
(half a cent per group). -/
theorem aggregateByParty_shares (rows : List ResultRow) (hpos : 0 < votesSum rows) :
    (∀ g ∈ aggregateByParty rows,
        g.vote_share_percent =
          round2 ((g.total_votes_sum : ℚ) / (votesSum rows : ℚ) * 100)) ∧
    |((aggregateByParty rows).map (fun g => g.vote_share_percent)).sum - 100| ≤
      ((aggregateByParty rows).length : ℚ) * (1 / 200) := by
  constructor
  · intro g hg
    rcases List.mem_map.mp hg with ⟨p, hp, hgp⟩
    rw [← hgp]
  · have hlen : (aggregateByParty rows).length = (groupKeys rows).length := by
      simp [aggregateByParty]
    have hmap : (aggregateByParty rows).map (fun g => g.vote_share_percent) =
        ((groupKeys rows).map (fun p =>
          (votesSum (filterByParty rows p) : ℚ) / (votesSum rows : ℚ) * 100)).map round2 := by
      simp [aggregateByParty, List.map_map, Function.comp]
    rw [hmap, hlen]
    have hbound := sum_map_round2_bound ((groupKeys rows).map (fun p =>
      (votesSum (filterByParty rows p) : ℚ) / (votesSum rows : ℚ) * 100))
    rw [List.length_map] at hbound
    have hexact : ((groupKeys rows).map (fun p =>
        (votesSum (filterByParty rows p) : ℚ) / (votesSum rows : ℚ) * 100)).sum = 100 := by
      rw [sum_map_div_mul (groupKeys rows)
        (fun p => (votesSum (filterByParty rows p) : ℚ)) (votesSum rows : ℚ)]
      rw [← natCast_sum_map (groupKeys rows) (fun p => votesSum (filterByParty rows p))]
      rw [sum_groups_eq (groupKeys rows) rows (groupKeys_nodup rows)
        (fun r hr => (mem_groupKeys rows r.party).mpr (List.mem_map_of_mem _ hr))]
      have hT : (votesSum rows : ℚ) ≠ 0 := by
        have : votesSum rows ≠ 0 := Nat.pos_iff_ne_zero.mp hpos
        exact_mod_cast this
      rw [div_self hT]
      norm_num
    rw [hexact] at hbound
    exact hbound

/-- Witness for C3 at a one-row table with ten votes: the single group takes
the whole 100 percent. -/
theorem aggregateByParty_shares_witness :
    (∀ g ∈ aggregateByParty [⟨"Kuppam", "N", "Telugu Desam", 10⟩],
        g.vote_share_percent =
          round2 ((g.total_votes_sum : ℚ) /
            (votesSum [⟨"Kuppam", "N", "Telugu Desam", 10⟩] : ℚ) * 100)) ∧
    |((aggregateByParty [⟨"Kuppam", "N", "Telugu Desam", 10⟩]).map
        (fun g => g.vote_share_percent)).sum - 100| ≤
      ((aggregateByParty [⟨"Kuppam", "N", "Telugu Desam", 10⟩]).length : ℚ) * (1 / 200) :=
  aggregateByParty_shares [⟨"Kuppam", "N", "Telugu Desam", 10⟩] (by decide)

/-- Counterexample to C3 as stated: on the non-empty all-zero-votes table the
grand total is zero, the vote share of the single group is not a percentage
of anything (pandas computes 0/0, a nan; the rational model yields 0), and
the shares do not sum to 100 within rounding tolerance. -/
theorem aggregateByParty_shares_zero_total :
    [(⟨"Nellore", "Z", "Telugu Desam", 0⟩ : ResultRow)] ≠ [] ∧
    ¬ (|((aggregateByParty [⟨"Nellore", "Z", "Telugu Desam", 0⟩]).map
          (fun g => g.vote_share_percent)).sum - 100| ≤
        ((aggregateByParty [⟨"Nellore", "Z", "Telugu Desam", 0⟩]).length : ℚ) * (1 / 200)) := by
  constructor
  · simp
  · have hk : groupKeys [⟨"Nellore", "Z", "Telugu Desam", 0⟩] = ["Telugu Desam"] := by decide
    have hf : filterByParty [(⟨"Nellore", "Z", "Telugu Desam", 0⟩ : ResultRow)] "Telugu Desam" =
        [⟨"Nellore", "Z", "Telugu Desam", 0⟩] := by decide
    simp only [aggregateByParty, hk, hf, List.map_cons, List.map_nil, List.sum_cons,
      List.sum_nil, List.length_cons, List.length_nil]
    norm_num [votesSum, round2, roundHalfEven]

/-- C7: on the scenario table, the per-party aggregation gives PartyA
sum 150, mean 75, count 2, share 50.00 and PartyB sum 150, mean 150, count 1,
share 50.00; filtering by constituency C1 keeps exactly two rows; and the
leading party of that subset is PartyB. -/
theorem scenario_results :
    aggregateByParty scenarioRows =
      [⟨"PartyA", 150, 75, 2, 50⟩, ⟨"PartyB", 150, 150, 1, 50⟩] ∧
    (filterByConstituency scenarioRows "C1").length = 2 ∧
    leadingParty (filterByConstituency scenarioRows "C1") = Except.ok "PartyB" := by
  refine ⟨?_, by decide, rfl⟩
  have hk : groupKeys scenarioRows = ["PartyA", "PartyB"] := by decide
  have hA : filterByParty scenarioRows "PartyA" =
      [⟨"C1", "X", "PartyA", 100⟩, ⟨"C2", "Z", "PartyA", 50⟩] := by decide
  have hB : filterByParty scenarioRows "PartyB" = [⟨"C1", "Y", "PartyB", 150⟩] := by decide
  have hT : votesSum scenarioRows = 300 := by decide
  simp only [aggregateByParty, hk, hA, hB, hT, List.map_cons, List.map_nil]
  norm_num [votesSum, round2, roundHalfEven, AggRow.mk.injEq]

/-- C10: every selectable constituency (an entry of the sorted distinct
values of the data) has a non-empty subset, on which `summarize` and
`leadingParty` succeed; the party selector instead offers four hard-coded
names independent of the data, and a selectable party can have an empty
subset. -/
theorem constituencyOptions_safe (data : List ResultRow) (c : String)
    (hc : c ∈ constituencyOptions data) :
    (filterByConstituency data c ≠ [] ∧
      (∃ s, summarize (filterByConstituency data c) = Except.ok s) ∧
      ∃ p, leadingParty (filterByConstituency data c) = Except.ok p) ∧
    partyOptions.length = 4 ∧
    ∃ rows q, q ∈ partyOptions ∧ filterByParty rows q = [] := by
  refine ⟨?_, by decide, ⟨[], "Telugu Desam", by decide, rfl⟩⟩
  have hmem : c ∈ data.map (fun r => r.constituency) := by
    rw [constituencyOptions] at hc
    exact List.mem_dedup.mp ((List.perm_insertionSort _ _).mem_iff.mp hc)
  rcases List.mem_map.mp hmem with ⟨r, hr, hrc⟩
  have hrmem : r ∈ filterByConstituency data c := by
    simp [filterByConstituency, List.mem_filter, hr, hrc]
  have hne : filterByConstituency data c ≠ [] := by
    intro h
    rw [h] at hrmem
    cases hrmem
  refine ⟨hne, ?_, ?_⟩
  · cases hfc : filterByConstituency data c with
    | nil => exact absurd hfc hne
    | cons a as => exact ⟨_, rfl⟩
  · cases hfc : filterByConstituency data c with
    | nil => exact absurd hfc hne
    | cons a as => exact ⟨_, rfl⟩

/-- Witness for C10 at a one-row table whose only constituency is selectable. -/
theorem constituencyOptions_safe_witness :
    ((filterByConstituency [⟨"Araku Valley", "W", "Bharatiya Janata Party", 3⟩]
          "Araku Valley" ≠ [] ∧
      (∃ s, summarize (filterByConstituency
          [⟨"Araku Valley", "W", "Bharatiya Janata Party", 3⟩] "Araku Valley") =
          Except.ok s) ∧
      ∃ p, leadingParty (filterByConstituency
          [⟨"Araku Valley", "W", "Bharatiya Janata Party", 3⟩] "Araku Valley") =
          Except.ok p) ∧
    partyOptions.length = 4 ∧
    ∃ rows q, q ∈ partyOptions ∧ filterByParty rows q = []) :=
  constituencyOptions_safe [⟨"Araku Valley", "W", "Bharatiya Janata Party", 3⟩]
    "Araku Valley" (by decide)
